import Mathlib

/-!
Verification of the news-aggregation core of the daily-news repository.

The development shallowly embeds the data model and the operations of
`src/scrapers/base.py`, `src/scrapers/techcrunch.py`, `src/scrapers/cnn.py`,
`src/scrapers/scmp_scraper.py` and `src/scrapers/manager.py`.

Modelling conventions:
* Python dictionaries are association lists (`List (key × value)`) preserving
  insertion order, which is how CPython dictionaries iterate.
* A BeautifulSoup document is modelled as the list of elements that the
  adapter's CSS selectors would match, in document order; an individual
  element is a record of the `select_one` / attribute lookups that the
  extraction code performs on it.  The CSS matching itself is opaque.
* `requests.get` + `NewsScraper.fetch_html_content` is a `transport`
  parameter of type `String → Option Soup` (`none` = any transport failure,
  which `fetch_html_content` converts to `None`).
* A Python function that may raise is modelled with `Option` at the point
  where its caller catches the exception.
* `datetime` values are records of calendar fields; `datetime.fromisoformat`
  and `datetime.strptime` are abstract parameters of type
  `String → Option PyDateTime` (the claims under study never depend on which
  strings parse, only on what happens with the parsed value).
-/

namespace DailyNews

/-- The `NewsArticle` TypedDict of `src/scrapers/base.py`. -/
structure NewsArticle where
  title : String
  url : String
  description : Option String
  published_date : Option String
  source : String
  image_url : Option String
  category : Option String
  content : Option String
deriving DecidableEq

/-- Python's substring test `pat in s` on strings. -/
def strContains (s pat : String) : Bool :=
  (List.range (s.length + 1)).any (fun i => (s.drop i).take pat.length == pat)

/-- Python's `str.lower()` for the ASCII names this codebase compares
(adapter registry keys and `source` display names).  Defined on the
character list so that proofs can evaluate it. -/
def lowerStr (s : String) : String := ⟨s.data.map Char.toLower⟩

/-- Python's `str.startswith(pat)` (= Lean's `String.startsWith`), defined on
the character lists so that proofs can evaluate it. -/
def startsWithStr (s pat : String) : Bool := pat.data.isPrefixOf s.data

/-- Model of `urllib.parse.urljoin` restricted to the shapes this codebase
exercises: an absolute reference is returned unchanged, an empty reference
yields the base, a root-relative path is appended to the (host-only) base,
and any other relative path is attached with a separating slash. -/
def urljoin (base rel : String) : String :=
  if rel = "" then base
  else if strContains rel "://" then rel
  else if startsWithStr rel "/" then base ++ rel
  else base ++ "/" ++ rel

/-- Calendar fields of a Python `datetime` (sub-second precision is never
observed by the code under study, since it only formats with seconds). -/
structure PyDateTime where
  year : Nat
  month : Nat
  day : Nat
  hour : Nat
  minute : Nat
  second : Nat
deriving DecidableEq

/-- Zero-padding to two digits, as `%m`, `%d`, `%H`, `%M`, `%S` do. -/
def pad2 (n : Nat) : String :=
  if n < 10 then "0" ++ toString n else toString n

/-- Zero-padding to four digits, as `%Y` does for the years in scope. -/
def pad4 (n : Nat) : String :=
  if n < 10 then "000" ++ toString n
  else if n < 100 then "00" ++ toString n
  else if n < 1000 then "0" ++ toString n
  else toString n

/-- Python's `strftime("%Y-%m-%d %H:%M:%S")`. -/
def strftimeYmdHMS (d : PyDateTime) : String :=
  pad4 d.year ++ "-" ++ pad2 d.month ++ "-" ++ pad2 d.day ++ " " ++
    pad2 d.hour ++ ":" ++ pad2 d.minute ++ ":" ++ pad2 d.second

/-- First-occurrence filter keyed by `key`, threading the set of already seen
keys.  This is the dedup pattern `if url not in seen_urls: seen_urls.add(url);
results.append(article)` used twice in `src/scrapers/manager.py`. -/
def dedupBy {α κ : Type} [DecidableEq κ] (key : α → κ) : List α → List κ → List α
  | [], _ => []
  | a :: rest, seen =>
    if key a ∈ seen then dedupBy key rest seen
    else a :: dedupBy key rest (key a :: seen)

/-! ## Source adapters (`src/scrapers/base.py` and concrete sites) -/

/-- The site-specific pieces that `NewsScraper.fetch_articles` dispatches to:
the constructor data (`base_url`, `category_urls`, `source_name`) plus the two
abstract methods used by the listing phase.  `Soup` is the parsed listing page
and `Element` one candidate article element. -/
structure SiteScraper (Soup Element : Type) where
  base_url : String
  category_urls : List (String × String)
  source_name : String
  select_elements : Soup → Nat → List Element
  extract_from_list_item : Element → String → Option NewsArticle

/-- `NewsScraper.get_category_url`: `none` models the raised `ValueError`. -/
def get_category_url {S E : Type} (s : SiteScraper S E) (category : String) :
    Option String :=
  (List.lookup category s.category_urls).map (urljoin s.base_url)

/-- `NewsScraper.fetch_articles` (`src/scrapers/base.py`, lines 47-89):
unknown category → caught `ValueError` → `[]`; failed transport → `[]`;
otherwise select elements and keep the successful extractions. -/
def fetch_articles {S E : Type} (s : SiteScraper S E)
    (transport : String → Option S) (category : String) (max_articles : Nat) :
    List NewsArticle :=
  match get_category_url s category with
  | none => []
  | some url =>
    match transport url with
    | none => []
    | some soup =>
      (s.select_elements soup max_articles).filterMap
        (fun e => s.extract_from_list_item e category)

/-! ### TechCrunch (`src/scrapers/techcrunch.py`) -/

/-- One `li.wp-block-post` element, recording the results of the lookups that
`TechCrunchScraper._extract_article_from_list_item` performs:
* `title_link`: the `h3.loop-card__title a.loop-card__title-link` element, as
  (stripped text, `href` attribute with `get`-default `""`);
* `desc_text`: text of `div.post-block__content` when present;
* `img_src`: the `src` attribute of `figure.loop-card__figure img`;
* `time_attr`: the parsed `datetime` attribute of a `time` element; `none`
  covers both "no `time` element" and "no `datetime` attribute", which the
  code treats identically (it keeps the `datetime.now()` default);
* `cat_text`: text of the `.loop-card__cat` element when present. -/
structure TCListItem where
  title_link : Option (String × String)
  desc_text : Option String
  img_src : Option String
  time_attr : Option PyDateTime
  cat_text : Option String
deriving DecidableEq

/-- The `category_urls` table of `TechCrunchScraper.__init__` (including the
trailing space of `"/latest "` present in the source). -/
def tc_category_urls : List (String × String) :=
  [("default", "/latest "),
   ("latest", "/latest "),
   ("ai", "/category/artificial-intelligence"),
   ("amazon", "/tag/amazon"),
   ("apps", "/category/apps"),
   ("biotech-health", "/category/biotech-health"),
   ("climate", "/category/climate"),
   ("cloud", "/tag/cloud-computing"),
   ("commerce", "/category/commerce"),
   ("crypto", "/category/cryptocurrency"),
   ("enterprise", "/category/enterprise"),
   ("electric vehicles", "/tag/evs"),
   ("fintech", "/category/fintech"),
   ("fundraising", "/category/fundraising"),
   ("gadgets", "/category/gadgets"),
   ("gaming", "/category/gaming"),
   ("google", "/tag/google"),
   ("government", "/category/government-policy"),
   ("hardware", "/category/hardware"),
   ("instagram", "/tag/instagram"),
   ("layoffs", "/tag/layoffs"),
   ("media entertainment", "/category/media-entertainment"),
   ("meta", "/tag/meta"),
   ("microsoft", "/tag/microsoft"),
   ("privacy", "/category/privacy"),
   ("robotics", "/category/robots"),
   ("social", "/category/social"),
   ("space", "/category/space"),
   ("startups", "/category/startups"),
   ("tiktok", "/tags/tiktok"),
   ("transportation", "/category/transportation"),
   ("venture", "/category/venture")]

/-- `TechCrunchScraper._extract_article_from_list_item` (lines 60-119).
`now` is the value of `datetime.now()`, the default kept when the element has
no parsed `datetime` attribute.  Note that the URL is stored exactly as the
`href` attribute (no `urljoin`), and that `published_date` is always a
formatted string, because the Python `published_date` variable always holds a
(truthy) `datetime`. -/
def tc_extract_article_from_list_item (now : PyDateTime) (source_name : String)
    (element : TCListItem) (category : String) : Option NewsArticle :=
  match element.title_link with
  | none => none
  | some (title, article_url) =>
    if article_url = "" then none
    else
      let description := element.desc_text.getD "No description available."
      let published_date := element.time_attr.getD now
      let card_category := element.cat_text.getD category
      some { title := title
             url := article_url
             description := some description
             published_date := some (strftimeYmdHMS published_date)
             source := source_name
             image_url := element.img_src
             category := some card_category
             content := none }

/-- The TechCrunch adapter.  `_select_article_elements` (lines 121-139)
selects `li.wp-block-post` elements — the soup list, in our model — and
returns `article_elements[:max_articles]`. -/
def techcrunchScraper (now : PyDateTime) : SiteScraper (List TCListItem) TCListItem :=
  { base_url := "https://techcrunch.com"
    category_urls := tc_category_urls
    source_name := "TechCrunch"
    select_elements := fun soup max_articles => soup.take max_articles
    extract_from_list_item := tc_extract_article_from_list_item now "TechCrunch" }

/-- `TechCrunchScraper._extract_published_date` (detail phase, lines 182-199):
only a `time.article__timestamp` element with a `datetime` attribute whose
string `fromisoformat` parses produces a date; every failure path (no element,
no attribute, parse exception) returns `None`. -/
def tc_extract_published_date (parseIso : String → Option PyDateTime)
    (time_attr : Option (Option String)) : Option String :=
  match time_attr with
  | some (some s) =>
    match parseIso s with
    | some date => some (strftimeYmdHMS date)
    | none => none
  | _ => none

/-! ### CNN (`src/scrapers/cnn.py`) -/

/-- The `img.media__image` element of a CNN list item: its `src` and
`data-src-large` attributes (`_get_attr_safe` defaults each to `""`). -/
structure CNNImg where
  src : Option String
  data_src_large : Option String
deriving DecidableEq

/-- One CNN listing element, recording the lookups of
`CNNScraper._extract_article_from_list_item`:
* `title_text`: text of the headline element matched by the title selectors;
* `link_href`: the result of `_safe_find_link` on that element (`""` when no
  link is found — the DOM walk itself is opaque to this model);
* `desc_text`: text of the description element when present;
* `img`: the image element when present. -/
structure CNNListItem where
  title_text : Option String
  link_href : String
  desc_text : Option String
  img : Option CNNImg
deriving DecidableEq

/-- The module-level `CATEGORY_URLS` table of `src/scrapers/cnn.py`. -/
def cnn_category_urls : List (String × String) :=
  [("default", "/world"),
   ("latest", "/world"),
   ("world", "/world"),
   ("us", "/us"),
   ("technology", "/business/tech"),
   ("general", "/weather")]

/-- `CNNScraper._get_attr_safe` once the element/attribute lookup is done. -/
def get_attr_safe (attr : Option String) : String := attr.getD ""

/-- `CNNScraper._extract_article_from_list_item` (lines 364-425): relative
URLs (not starting with `"http"`) are resolved with `urljoin`; empty URLs and
`/videos/` URLs are skipped; `published_date` is always `None` in list view. -/
def cnn_extract_article_from_list_item (source_name base_url : String)
    (element : CNNListItem) (category : String) : Option NewsArticle :=
  match element.title_text with
  | none => none
  | some title =>
    let article_url_str := element.link_href
    let article_url_str :=
      if article_url_str ≠ "" ∧ ¬ startsWithStr article_url_str "http" then
        urljoin base_url article_url_str
      else article_url_str
    if article_url_str = "" ∨ strContains article_url_str "/videos/" then none
    else
      let image_url : Option String :=
        match element.img with
        | none => none
        | some img =>
          let s := get_attr_safe img.src
          if s = "" then some (get_attr_safe img.data_src_large) else some s
      some { title := title
             url := article_url_str
             description := element.desc_text
             published_date := none
             source := source_name
             image_url := image_url
             category := some category
             content := none }

/-- The CNN adapter.  `_select_article_elements` (lines 80-114) selects the
container elements — the soup list, in our model — and returns
`article_elements[:max_articles]`. -/
def cnnScraper : SiteScraper (List CNNListItem) CNNListItem :=
  { base_url := "https://www.cnn.com"
    category_urls := cnn_category_urls
    source_name := "CNN"
    select_elements := fun soup max_articles => soup.take max_articles
    extract_from_list_item :=
      cnn_extract_article_from_list_item "CNN" "https://www.cnn.com" }

/-- The timestamp element matched by `CNNScraper._extract_published_date`:
a `time` tag (with optional `datetime` attribute), a `div.timestamp` (with
optional `datetime` attribute and a text fallback), or a `meta` tag (with
optional `content` attribute). -/
inductive CNNTimeElem where
  | timeTag (datetime : Option String)
  | divTag (datetime : Option String) (text : String)
  | metaTag (content : Option String)
deriving DecidableEq

/-- The `date_str` computed by `CNNScraper._extract_published_date` before
parsing: `datetime` attribute for `time`/`div` tags (text fallback for `div`),
`content` attribute for `meta` tags. -/
def cnn_date_str : CNNTimeElem → String
  | .timeTag d => get_attr_safe d
  | .divTag d text => if get_attr_safe d = "" then text else get_attr_safe d
  | .metaTag c => get_attr_safe c

/-- `CNNScraper._extract_published_date` (lines 234-277).  `parseIso` models
`datetime.fromisoformat` and `parseUS` the `strptime` fallback for
`EDT`/`EST` strings (`none` = raised `ValueError`); every failure path leaves
`published_date` as `None`, and the final line formats it when set. -/
def cnn_extract_published_date (parseIso parseUS : String → Option PyDateTime)
    (time_elem : Option CNNTimeElem) : Option String :=
  match time_elem with
  | none => none
  | some t =>
    let date_str := cnn_date_str t
    let date_str :=
      if strContains date_str "Z" then date_str.replace "Z" "+00:00"
      else date_str
    let published_date : Option PyDateTime :=
      if date_str = "" then none
      else
        match parseIso date_str with
        | some d => some d
        | none =>
          if strContains date_str "EDT" ∨ strContains date_str "EST" then
            parseUS ((date_str.replace "Updated" "").trim)
          else none
    published_date.map strftimeYmdHMS

/-! ### SCMP (`src/scrapers/scmp_scraper.py`) -/

/-- `SCMPScraper._extract_article_from_api_item` (line 225-228): the body is
`pass`, so it returns `None` for every item. -/
def scmp_extract_article_from_api_item {α : Type} (_item : α)
    (_category : String) : Option NewsArticle := none

/-- `SCMPScraper.fetch_articles` (lines 97-136) composed with
`_select_raw_articles_from_api` (lines 177-223): the API nodes (`α` keeps the
JSON shape opaque) are truncated to `max_articles` and each is passed to the
extractor, keeping the non-`None` results. -/
def scmp_fetch_articles {α : Type} (api_nodes : List α) (category : String)
    (max_articles : Nat) : List NewsArticle :=
  (api_nodes.take max_articles).filterMap
    (fun item => scmp_extract_article_from_api_item item category)

/-! ## Aggregation manager (`src/scrapers/manager.py`) -/

/-- The two scraper methods that `ScraperManager` invokes through duck
typing: the listing fetch and the per-URL detail fetch (`none` models the
exception that `fetch_detailed_content` catches). -/
structure MScraper where
  fetch_articles : String → Nat → List NewsArticle
  fetch_article_by_url : String → Option NewsArticle

/-- `ScraperManager.scrapers`: a name-keyed, insertion-ordered registry.  The
reference construction is `[("techcrunch", …), ("cnn", …)]`; the theorems
quantify over arbitrary registries. -/
abbrev Registry := List (String × MScraper)

/-- The inner loop of `ScraperManager.fetch_headlines` (lines 97-104): append
each article to the accumulated `(results, seen_urls)` state unless its URL
has been seen. -/
def appendDedup (acc : List NewsArticle × List String) :
    List NewsArticle → List NewsArticle × List String
  | [] => acc
  | a :: rest =>
    if a.url ∈ acc.2 then appendDedup acc rest
    else appendDedup (acc.1 ++ [a], acc.2 ++ [a.url]) rest

/-- `ScraperManager.fetch_headlines` (lines 52-106): default the sources to
the registry keys and the categories to `["default"]` when empty, skip
unregistered source names, and fold every `(source, category)` fetch through
the URL dedup. -/
def fetch_headlines (m : Registry) (sources categories : List String)
    (max_articles_per_source : Nat) : List NewsArticle :=
  let sources := if sources.isEmpty then m.map Prod.fst else sources
  let categories := if categories.isEmpty then ["default"] else categories
  (sources.foldl
    (fun acc source_name =>
      match List.lookup source_name m with
      | none => acc
      | some scraper =>
        categories.foldl
          (fun acc category =>
            appendDedup acc (scraper.fetch_articles category max_articles_per_source))
          acc)
    ([], [])).1

/-- The raw stream of articles that `fetch_headlines` consumes, before
deduplication: sources in argument order (registry order when defaulted,
unknown names contributing nothing), then categories in argument order, then
each adapter's records in returned order. -/
def headlineStream (m : Registry) (sources categories : List String)
    (max_articles_per_source : Nat) : List NewsArticle :=
  let sources := if sources.isEmpty then m.map Prod.fst else sources
  let categories := if categories.isEmpty then ["default"] else categories
  sources.flatMap
    (fun source_name =>
      match List.lookup source_name m with
      | none => []
      | some scraper =>
        categories.flatMap
          (fun category => scraper.fetch_articles category max_articles_per_source))

/-- The adapter-matching test of `ScraperManager.fetch_detailed_content`
(lines 137-140): case-insensitive substring containment in either
direction. -/
def sourceMatches (scraper_name source_name : String) : Bool :=
  strContains (lowerStr source_name) (lowerStr scraper_name) ||
    strContains (lowerStr scraper_name) (lowerStr source_name)

/-- The scraper-resolution loop of `fetch_detailed_content` (lines 134-142):
first registry entry that matches the record's source, if any. -/
def findScraper (m : Registry) (source_name : String) : Option MScraper :=
  (m.find? (fun p => sourceMatches p.1 source_name)).map Prod.snd

/-- `by_category[key].append(value)` on an insertion-ordered dictionary of
lists, creating the key at the end when absent.  Used by both the
source-grouping of `fetch_detailed_content` and `organize_by_category`. -/
def insertGrouped : List (String × List NewsArticle) → String → NewsArticle →
    List (String × List NewsArticle)
  | [], k, a => [(k, [a])]
  | (k', l) :: rest, k, a =>
    if k' = k then (k', l ++ [a]) :: rest
    else (k', l) :: insertGrouped rest k a

/-- The `articles_by_source` grouping of `fetch_detailed_content` (lines
124-130), keyed by `article.get("source", "")` — the `source` field. -/
def groupBySource (articles : List NewsArticle) :
    List (String × List NewsArticle) :=
  articles.foldl (fun acc a => insertGrouped acc a.source a) []

/-- The per-group body of `fetch_detailed_content` (lines 133-162): keep the
group unchanged when no adapter matches, otherwise replace each article by
its detail fetch, falling back to the original when the fetch raises. -/
def process_group (m : Registry) (source_name : String)
    (group : List NewsArticle) : List NewsArticle :=
  match findScraper m source_name with
  | none => group
  | some scraper =>
    group.map (fun a => (scraper.fetch_article_by_url a.url).getD a)

/-- `ScraperManager.fetch_detailed_content` (lines 108-164): group by source,
then append every processed group to the result. -/
def fetch_detailed_content (m : Registry) (articles : List NewsArticle) :
    List NewsArticle :=
  (groupBySource articles).foldl
    (fun acc p => acc ++ process_group m p.1 p.2) []

/-- The category label assigned by `organize_by_category` (lines 210-221):
`article.get("category")` with the falsy values (`None` and `""`) replaced by
the `"uncategorized"` sentinel. -/
def categoryLabel (a : NewsArticle) : String :=
  match a.category with
  | none => "uncategorized"
  | some c => if c = "" then "uncategorized" else c

/-- The loop of `ScraperManager.organize_by_category` (lines 207-228):
URL-dedup interleaved with grouping by category label. -/
def organize_loop : List NewsArticle → List (String × List NewsArticle) →
    List String → List (String × List NewsArticle)
  | [], acc, _ => acc
  | a :: rest, acc, seen =>
    if a.url ∈ seen then organize_loop rest acc seen
    else organize_loop rest (insertGrouped acc (categoryLabel a) a) (seen ++ [a.url])

/-- `ScraperManager.organize_by_category` (lines 190-230). -/
def organize_by_category (news_data : List NewsArticle) :
    List (String × List NewsArticle) :=
  organize_loop news_data [] []

/-- The first-occurrence list of source keys, in input order; the key order
of `groupBySource` (CPython dictionaries iterate in insertion order). -/
def firstKeys (articles : List NewsArticle) : List String :=
  dedupBy (fun s => s) (articles.map (fun a => a.source)) []

/-! ## Properties of the first-occurrence filter -/

theorem dedupBy_congr_seen {α κ : Type} [DecidableEq κ] (key : α → κ) :
    ∀ (l : List α) (s₁ s₂ : List κ), (∀ k, k ∈ s₁ ↔ k ∈ s₂) →
      dedupBy key l s₁ = dedupBy key l s₂ := by
  intro l
  induction l with
  | nil => intro _ _ _; rfl
  | cons a rest ih =>
    intro s₁ s₂ h
    simp only [dedupBy]
    by_cases hk : key a ∈ s₁
    · rw [if_pos hk, if_pos ((h (key a)).1 hk)]
      exact ih s₁ s₂ h
    · rw [if_neg hk, if_neg (fun c => hk ((h (key a)).2 c))]
      have h' : ∀ k, k ∈ key a :: s₁ ↔ k ∈ key a :: s₂ := by
        intro k
        simp only [List.mem_cons]
        exact or_congr Iff.rfl (h k)
      rw [ih _ _ h']

theorem mem_dedupBy_key_not_seen {α κ : Type} [DecidableEq κ] (key : α → κ) :
    ∀ (l : List α) (seen : List κ) (a : α),
      a ∈ dedupBy key l seen → key a ∉ seen := by
  intro l
  induction l with
  | nil => intro seen a h; simp [dedupBy] at h
  | cons b rest ih =>
    intro seen a h
    simp only [dedupBy] at h
    by_cases hk : key b ∈ seen
    · rw [if_pos hk] at h
      exact ih seen a h
    · rw [if_neg hk] at h
      rcases List.mem_cons.mp h with h1 | h2
      · subst h1; exact hk
      · intro hs
        exact ih _ a h2 (List.mem_cons_of_mem _ hs)

theorem dedupBy_countP {α κ : Type} [DecidableEq κ] (key : α → κ) :
    ∀ (l : List α) (seen : List κ) (u : κ),
      (dedupBy key l seen).countP (fun x => decide (key x = u)) =
        if u ∈ l.map key ∧ u ∉ seen then 1 else 0 := by
  intro l
  induction l with
  | nil => intro seen u; simp [dedupBy]
  | cons a rest ih =>
    intro seen u
    simp only [dedupBy, List.map_cons, List.mem_cons]
    by_cases hk : key a ∈ seen
    · rw [if_pos hk, ih]
      by_cases hu : u = key a
      · subst hu
        simp [hk]
      · simp [hu]
    · rw [if_neg hk, List.countP_cons]
      by_cases hu : u = key a
      · subst hu
        have hz : (dedupBy key rest (key a :: seen)).countP
            (fun x => decide (key x = key a)) = 0 := by
          rw [List.countP_eq_zero]
          intro x hx
          have := mem_dedupBy_key_not_seen key rest (key a :: seen) x hx
          simp only [List.mem_cons, not_or] at this
          simp [this.1]
        rw [hz]
        simp [hk]
      · rw [ih]
        have : (u ∈ List.map key rest ∧ u ∉ key a :: seen) ↔
            ((u = key a ∨ u ∈ List.map key rest) ∧ u ∉ seen) := by
          simp only [List.mem_cons, not_or]
          constructor
          · rintro ⟨hm, hne, hs⟩
            exact ⟨Or.inr hm, hs⟩
          · rintro ⟨hm, hs⟩
            rcases hm with hm | hm
            · exact absurd hm hu
            · exact ⟨hm, hu, hs⟩
        rw [if_congr this rfl rfl]
        have hau : ¬ (key a = u) := fun h => hu h.symm
        simp [hau]

theorem dedupBy_find? {α κ : Type} [DecidableEq κ] (key : α → κ) :
    ∀ (l : List α) (seen : List κ) (u : κ), u ∉ seen →
      (dedupBy key l seen).find? (fun x => decide (key x = u)) =
        l.find? (fun x => decide (key x = u)) := by
  intro l
  induction l with
  | nil => intro seen u _; simp [dedupBy]
  | cons a rest ih =>
    intro seen u hu
    simp only [dedupBy]
    by_cases hk : key a ∈ seen
    · rw [if_pos hk]
      have hne : ¬ (key a = u) := fun h => hu (h ▸ hk)
      rw [List.find?_cons_of_neg _ (by simp [hne]), ih seen u hu]
    · rw [if_neg hk]
      by_cases hau : key a = u
      · rw [List.find?_cons_of_pos _ (by simp [hau]),
          List.find?_cons_of_pos _ (by simp [hau])]
      · rw [List.find?_cons_of_neg _ (by simp [hau]),
          List.find?_cons_of_neg _ (by simp [hau])]
        refine ih _ u ?_
        simp only [List.mem_cons, not_or]
        exact ⟨fun h => hau h.symm, hu⟩

theorem dedupBy_map_key_nodup {α κ : Type} [DecidableEq κ] (key : α → κ) :
    ∀ (l : List α) (seen : List κ), ((dedupBy key l seen).map key).Nodup := by
  intro l
  induction l with
  | nil => intro seen; simp [dedupBy]
  | cons a rest ih =>
    intro seen
    simp only [dedupBy]
    by_cases hk : key a ∈ seen
    · rw [if_pos hk]; exact ih seen
    · rw [if_neg hk]
      simp only [List.map_cons, List.nodup_cons]
      refine ⟨?_, ih _⟩
      intro hmem
      rcases List.mem_map.mp hmem with ⟨x, hx, hkey⟩
      have := mem_dedupBy_key_not_seen key rest (key a :: seen) x hx
      simp only [List.mem_cons, not_or] at this
      exact this.1 hkey

/-! ## `fetch_headlines` as a first-occurrence filter of the raw stream -/

theorem appendDedup_eq (l : List NewsArticle) :
    ∀ (res : List NewsArticle) (seen : List String),
      appendDedup (res, seen) l =
        (res ++ dedupBy (fun a => a.url) l seen,
         seen ++ (dedupBy (fun a => a.url) l seen).map (fun a => a.url)) := by
  induction l with
  | nil => intro res seen; simp [appendDedup, dedupBy]
  | cons a rest ih =>
    intro res seen
    simp only [appendDedup, dedupBy]
    by_cases hk : a.url ∈ seen
    · rw [if_pos hk, if_pos hk, ih]
    · rw [if_neg hk, if_neg hk, ih]
      have hseen : dedupBy (fun a => a.url) rest (seen ++ [a.url]) =
          dedupBy (fun a => a.url) rest (a.url :: seen) := by
        refine dedupBy_congr_seen _ rest _ _ ?_
        intro k
        simp [List.mem_append, List.mem_cons, or_comm]
      rw [hseen]
      simp only [List.map_cons, List.append_assoc, List.cons_append,
        List.nil_append, List.singleton_append]

theorem appendDedup_append (l₁ l₂ : List NewsArticle) :
    ∀ acc, appendDedup acc (l₁ ++ l₂) = appendDedup (appendDedup acc l₁) l₂ := by
  induction l₁ with
  | nil => intro acc; rfl
  | cons a rest ih =>
    intro acc
    rw [List.cons_append]
    simp only [appendDedup]
    by_cases hk : a.url ∈ acc.2
    · rw [if_pos hk, if_pos hk, ih]
    · rw [if_neg hk, if_neg hk, ih]

theorem foldl_appendDedup {β : Type} (f : β → List NewsArticle) :
    ∀ (xs : List β) (acc), xs.foldl (fun acc x => appendDedup acc (f x)) acc =
      appendDedup acc (xs.flatMap f) := by
  intro xs
  induction xs with
  | nil => intro acc; rfl
  | cons x xs ih =>
    intro acc
    simp only [List.foldl_cons, List.flatMap_cons]
    rw [ih, appendDedup_append]

theorem fetch_headlines_core (m : Registry) (srcs cats : List String) (n : Nat) :
    (srcs.foldl
      (fun acc source_name =>
        match List.lookup source_name m with
        | none => acc
        | some scraper =>
          cats.foldl
            (fun acc category => appendDedup acc (scraper.fetch_articles category n))
            acc)
      ([], [])).1 =
    dedupBy (fun a => a.url)
      (srcs.flatMap
        (fun source_name =>
          match List.lookup source_name m with
          | none => []
          | some scraper =>
            cats.flatMap (fun category => scraper.fetch_articles category n)))
      [] := by
  have hstep : (fun (acc : List NewsArticle × List String) (source_name : String) =>
      match List.lookup source_name m with
      | none => acc
      | some scraper =>
        cats.foldl
          (fun acc category => appendDedup acc (scraper.fetch_articles category n))
          acc) =
      (fun acc source_name =>
        appendDedup acc
          (match List.lookup source_name m with
           | none => []
           | some scraper =>
             cats.flatMap (fun category => scraper.fetch_articles category n))) := by
    funext acc source_name
    cases List.lookup source_name m with
    | none => rfl
    | some scraper => exact foldl_appendDedup _ _ acc
  rw [hstep, foldl_appendDedup, appendDedup_eq]
  simp

theorem fetch_headlines_eq_dedup (m : Registry) (sources categories : List String)
    (n : Nat) :
    fetch_headlines m sources categories n =
      dedupBy (fun a => a.url) (headlineStream m sources categories n) [] := by
  unfold fetch_headlines headlineStream
  exact fetch_headlines_core m
    (if sources.isEmpty then m.map Prod.fst else sources)
    (if categories.isEmpty then ["default"] else categories) n

/-! ## Properties of the insertion-ordered grouping -/

theorem mem_dedupBy_id {κ : Type} [DecidableEq κ] :
    ∀ (l : List κ) (seen : List κ) (x : κ),
      x ∈ dedupBy (fun s => s) l seen ↔ x ∈ l ∧ x ∉ seen := by
  intro l
  induction l with
  | nil => intro seen x; simp [dedupBy]
  | cons a rest ih =>
    intro seen x
    simp only [dedupBy]
    by_cases hk : a ∈ seen
    · rw [if_pos hk, ih]
      constructor
      · rintro ⟨hm, hs⟩
        exact ⟨List.mem_cons_of_mem _ hm, hs⟩
      · rintro ⟨hm, hs⟩
        rcases List.mem_cons.mp hm with h | h
        · exact absurd (h ▸ hk) hs
        · exact ⟨h, hs⟩
    · rw [if_neg hk]
      constructor
      · intro hmem
        rcases List.mem_cons.mp hmem with h | h
        · subst h; exact ⟨List.mem_cons_self _ _, hk⟩
        · rcases (ih _ x).mp h with ⟨hm, hs⟩
          simp only [List.mem_cons, not_or] at hs
          exact ⟨List.mem_cons_of_mem _ hm, hs.2⟩
      · rintro ⟨hm, hs⟩
        rcases List.mem_cons.mp hm with h | h
        · subst h; exact List.mem_cons_self _ _
        · by_cases hx : x = a
          · subst hx; exact List.mem_cons_self _ _
          · refine List.mem_cons_of_mem _ ((ih _ x).mpr ⟨h, ?_⟩)
            simp only [List.mem_cons, not_or]
            exact ⟨hx, hs⟩

theorem dedupBy_append_singleton {α κ : Type} [DecidableEq κ] (key : α → κ)
    (x : α) :
    ∀ (l : List α) (seen : List κ),
      dedupBy key (l ++ [x]) seen =
        dedupBy key l seen ++
          (if key x ∈ seen ∨ key x ∈ l.map key then [] else [x]) := by
  intro l
  induction l with
  | nil =>
    intro seen
    simp only [List.nil_append, List.map_nil, List.not_mem_nil, or_false]
    by_cases hs : key x ∈ seen
    · simp [dedupBy, hs]
    · simp [dedupBy, hs]
  | cons a rest ih =>
    intro seen
    rw [List.cons_append]
    simp only [dedupBy, List.map_cons, List.mem_cons]
    by_cases hk : key a ∈ seen
    · rw [if_pos hk, if_pos hk, ih]
      congr 1
      by_cases hx : key x = key a
      · simp [hx, hk]
      · simp [hx]
    · rw [if_neg hk, if_neg hk, ih]
      simp only [List.cons_append, List.mem_cons]
      congr 2
      by_cases hx : key x = key a
      · simp [hx]
      · simp [hx]

theorem firstKeys_nodup (articles : List NewsArticle) :
    (firstKeys articles).Nodup := by
  have h := dedupBy_map_key_nodup (fun s : String => s)
    (articles.map (fun a => a.source)) []
  simpa using h

theorem insertGrouped_map_form (f : String → List NewsArticle) (k : String)
    (a : NewsArticle) :
    ∀ keys : List String, keys.Nodup →
      insertGrouped (keys.map (fun s => (s, f s))) k a =
        (if k ∈ keys then
          keys.map (fun s => (s, if s = k then f s ++ [a] else f s))
        else keys.map (fun s => (s, f s)) ++ [(k, [a])]) := by
  intro keys
  induction keys with
  | nil => intro _; simp [insertGrouped]
  | cons s keys ih =>
    intro hnd
    rcases List.nodup_cons.mp hnd with ⟨hs, hnd'⟩
    simp only [List.map_cons, insertGrouped]
    by_cases hsk : s = k
    · subst hsk
      rw [if_pos rfl, if_pos (List.mem_cons_self _ _)]
      simp only [List.map_cons, if_pos rfl]
      congr 1
      refine (List.map_congr_left ?_).symm
      intro s' hs'
      have : ¬ (s' = s) := fun h => hs (h ▸ hs')
      simp [this]
    · rw [if_neg hsk, ih hnd']
      by_cases hk : k ∈ keys
      · rw [if_pos hk, if_pos (List.mem_cons_of_mem _ hk)]
        congr 1
        simp [hsk]
      · have : k ∉ s :: keys := by
          simp only [List.mem_cons, not_or]
          exact ⟨fun h => hsk h.symm, hk⟩
        rw [if_neg hk, if_neg this]
        simp

theorem countP_flatMap_insertGrouped (p : NewsArticle → Bool) (k : String)
    (a : NewsArticle) :
    ∀ acc, ((insertGrouped acc k a).flatMap Prod.snd).countP p =
      (acc.flatMap Prod.snd).countP p + (if p a then 1 else 0) := by
  intro acc
  induction acc with
  | nil =>
    simp only [insertGrouped, List.flatMap_cons, List.flatMap_nil,
      List.append_nil, List.countP_nil]
    rw [List.countP_cons]
    simp
  | cons hd rest ih =>
    obtain ⟨k', l⟩ := hd
    simp only [insertGrouped]
    by_cases h : k' = k
    · rw [if_pos h]
      simp only [List.flatMap_cons, List.countP_append, List.countP_cons,
        List.countP_nil]
      omega
    · rw [if_neg h]
      simp only [List.flatMap_cons, List.countP_append, ih]
      omega

theorem length_flatMap_insertGrouped (k : String) (a : NewsArticle) :
    ∀ acc, ((insertGrouped acc k a).flatMap Prod.snd).length =
      (acc.flatMap Prod.snd).length + 1 := by
  intro acc
  induction acc with
  | nil => simp [insertGrouped]
  | cons hd rest ih =>
    obtain ⟨k', l⟩ := hd
    simp only [insertGrouped]
    by_cases h : k' = k
    · rw [if_pos h]
      simp only [List.flatMap_cons, List.length_append, List.length_append]
      simp
      omega
    · rw [if_neg h]
      simp only [List.flatMap_cons, List.length_append, ih]
      omega

theorem insertGrouped_sound (P : String → NewsArticle → Prop) (k : String)
    (a : NewsArticle) (hPa : P k a) :
    ∀ acc, (∀ p ∈ acc, ∀ x ∈ p.2, P p.1 x) →
      ∀ p ∈ insertGrouped acc k a, ∀ x ∈ p.2, P p.1 x := by
  intro acc
  induction acc with
  | nil =>
    intro _ p hp x hx
    simp only [insertGrouped, List.mem_singleton] at hp
    subst hp
    simp only [List.mem_singleton] at hx
    subst hx
    exact hPa
  | cons hd rest ih =>
    obtain ⟨k', l⟩ := hd
    intro h p hp x hx
    simp only [insertGrouped] at hp
    by_cases hk : k' = k
    · rw [if_pos hk] at hp
      rcases List.mem_cons.mp hp with h1 | h2
      · subst h1
        rcases List.mem_append.mp hx with h3 | h3
        · exact h (k', l) (List.mem_cons_self _ _) x h3
        · simp only [List.mem_singleton] at h3
          subst h3
          exact hk ▸ hPa
      · exact h p (List.mem_cons_of_mem _ h2) x hx
    · rw [if_neg hk] at hp
      rcases List.mem_cons.mp hp with h1 | h2
      · subst h1
        exact h (k', l) (List.mem_cons_self _ _) x hx
      · exact ih (fun q hq => h q (List.mem_cons_of_mem _ hq)) p h2 x hx

/-- The `articles_by_source` dictionary built by `fetch_detailed_content` is
the first-occurrence key list paired with the per-source sublists. -/
theorem groupBySource_eq (articles : List NewsArticle) :
    groupBySource articles =
      (firstKeys articles).map
        (fun s => (s, articles.filter (fun a => decide (a.source = s)))) := by
  induction articles using List.reverseRecOn with
  | nil => rfl
  | append_singleton xs a ih =>
    have hgroup : groupBySource (xs ++ [a]) =
        insertGrouped (groupBySource xs) a.source a := by
      simp [groupBySource, List.foldl_append]
    have hkeys : firstKeys (xs ++ [a]) =
        firstKeys xs ++
          (if a.source ∈ xs.map (fun x => x.source) then [] else [a.source]) := by
      unfold firstKeys
      rw [List.map_append]
      simp only [List.map_cons, List.map_nil]
      rw [dedupBy_append_singleton]
      congr 1
      simp
    have hmemkeys : a.source ∈ firstKeys xs ↔
        a.source ∈ xs.map (fun x => x.source) := by
      unfold firstKeys
      rw [mem_dedupBy_id]
      simp
    rw [hgroup, ih,
      insertGrouped_map_form _ _ _ (firstKeys xs) (firstKeys_nodup xs), hkeys]
    by_cases hmem : a.source ∈ xs.map (fun x => x.source)
    · rw [if_pos (hmemkeys.mpr hmem), if_pos hmem, List.append_nil]
      refine List.map_congr_left ?_
      intro s hs
      rw [List.filter_append]
      by_cases hsa : s = a.source
      · subst hsa
        simp
      · have : ¬ (a.source = s) := fun h => hsa h.symm
        simp [this, hsa]
    · rw [if_neg (fun c => hmem (hmemkeys.mp c)), if_neg hmem, List.map_append]
      congr 1
      · refine List.map_congr_left ?_
        intro s hs
        rw [List.filter_append]
        have hs' : s ∈ xs.map (fun x => x.source) := by
          unfold firstKeys at hs
          rw [mem_dedupBy_id] at hs
          exact hs.1
        have hsa : ¬ (a.source = s) := fun h => hmem (h ▸ hs')
        simp [hsa]
      · simp only [List.map_cons, List.map_nil]
        have hfilter : xs.filter (fun x => decide (x.source = a.source)) = [] := by
          rw [List.filter_eq_nil_iff]
          intro x hx
          simp only [decide_eq_true_eq]
          intro h
          exact hmem (List.mem_map.mpr ⟨x, hx, h⟩)
        rw [List.filter_append, hfilter]
        simp

/-! ## Properties of `organize_by_category` -/

theorem organize_loop_countP (u : String) :
    ∀ (news : List NewsArticle) (acc : List (String × List NewsArticle))
      (seen : List String),
      ((organize_loop news acc seen).flatMap Prod.snd).countP
          (fun x => decide (x.url = u)) =
        (acc.flatMap Prod.snd).countP (fun x => decide (x.url = u)) +
          (dedupBy (fun a => a.url) news seen).countP
            (fun x => decide (x.url = u)) := by
  intro news
  induction news with
  | nil => intro acc seen; simp [organize_loop, dedupBy]
  | cons a rest ih =>
    intro acc seen
    simp only [organize_loop, dedupBy]
    by_cases hk : a.url ∈ seen
    · rw [if_pos hk, if_pos hk, ih]
    · rw [if_neg hk, if_neg hk, ih]
      rw [countP_flatMap_insertGrouped]
      have hseen : dedupBy (fun a => a.url) rest (seen ++ [a.url]) =
          dedupBy (fun a => a.url) rest (a.url :: seen) := by
        refine dedupBy_congr_seen _ rest _ _ ?_
        intro k
        simp [List.mem_append, List.mem_cons, or_comm]
      rw [hseen, List.countP_cons]
      omega

theorem organize_loop_labels :
    ∀ (news : List NewsArticle) (acc : List (String × List NewsArticle))
      (seen : List String),
      (∀ p ∈ acc, ∀ x ∈ p.2, p.1 = categoryLabel x) →
      ∀ p ∈ organize_loop news acc seen, ∀ x ∈ p.2, p.1 = categoryLabel x := by
  intro news
  induction news with
  | nil => intro acc seen h; exact h
  | cons a rest ih =>
    intro acc seen h
    simp only [organize_loop]
    by_cases hk : a.url ∈ seen
    · rw [if_pos hk]
      exact ih acc seen h
    · rw [if_neg hk]
      exact ih _ _
        (insertGrouped_sound (fun s x => s = categoryLabel x)
          (categoryLabel a) a rfl acc h)

/-! ## Properties of `fetch_detailed_content` -/

theorem process_group_length (m : Registry) (s : String)
    (group : List NewsArticle) :
    (process_group m s group).length = group.length := by
  unfold process_group
  cases findScraper m s with
  | none => rfl
  | some scraper => simp

theorem foldl_append_process (m : Registry) :
    ∀ (l : List (String × List NewsArticle)) (acc : List NewsArticle),
      l.foldl (fun acc p => acc ++ process_group m p.1 p.2) acc =
        acc ++ l.flatMap (fun p => process_group m p.1 p.2) := by
  intro l
  induction l with
  | nil => intro acc; simp
  | cons p rest ih =>
    intro acc
    simp only [List.foldl_cons, List.flatMap_cons, ih]
    rw [List.append_assoc]

/-- `fetch_detailed_content` replayed over the first-occurrence source keys:
for each source in order of first appearance, the (order-preserving,
duplicate-preserving) sublist of articles with that source is processed and
the blocks are concatenated. -/
theorem fetch_detailed_content_eq (m : Registry) (articles : List NewsArticle) :
    fetch_detailed_content m articles =
      (firstKeys articles).flatMap
        (fun s =>
          process_group m s (articles.filter (fun a => decide (a.source = s)))) := by
  unfold fetch_detailed_content
  rw [foldl_append_process, groupBySource_eq, List.nil_append,
    List.flatMap_map]

theorem length_flatMap_groupBySource :
    ∀ (news : List NewsArticle) (acc : List (String × List NewsArticle)),
      ((news.foldl (fun acc a => insertGrouped acc a.source a) acc).flatMap
          Prod.snd).length =
        (acc.flatMap Prod.snd).length + news.length := by
  intro news
  induction news with
  | nil => intro acc; simp
  | cons a rest ih =>
    intro acc
    simp only [List.foldl_cons, List.length_cons, ih,
      length_flatMap_insertGrouped]
    omega

theorem fetch_detailed_content_length (m : Registry)
    (articles : List NewsArticle) :
    (fetch_detailed_content m articles).length = articles.length := by
  unfold fetch_detailed_content
  rw [foldl_append_process, List.nil_append]
  have h1 : ∀ l : List (String × List NewsArticle),
      (l.flatMap (fun p => process_group m p.1 p.2)).length =
        (l.flatMap Prod.snd).length := by
    intro l
    induction l with
    | nil => rfl
    | cons p rest ih =>
      simp only [List.flatMap_cons, List.length_append, ih,
        process_group_length]
  rw [h1]
  have h2 := length_flatMap_groupBySource articles []
  simpa [groupBySource] using h2

/-! ## Claim theorems -/

/-- Claim C1: for every call to `fetch_headlines` and every URL, the returned
list contains at most one record with that URL, and the record kept for a URL
is the first record carrying it in the raw (source, category) iteration
stream — first-seen wins, later duplicates (even from another source) are
dropped. -/
theorem C1_fetch_headlines_dedup (m : Registry) (sources categories : List String)
    (n : Nat) (u : String) :
    (fetch_headlines m sources categories n).countP
        (fun a => decide (a.url = u)) ≤ 1 ∧
    (fetch_headlines m sources categories n).find? (fun a => decide (a.url = u)) =
      (headlineStream m sources categories n).find?
        (fun a => decide (a.url = u)) := by
  constructor
  · rw [fetch_headlines_eq_dedup, dedupBy_countP]
    split
    · exact le_refl 1
    · exact Nat.zero_le 1
  · rw [fetch_headlines_eq_dedup]
    exact dedupBy_find? _ _ _ u (List.not_mem_nil u)

/-- Claim C2: absent concurrency, the output of `fetch_headlines` is exactly
the first-occurrence filter (by URL) of the raw stream obtained by iterating
the `sources` argument in order and, per source, the `categories` argument in
order, each adapter's records in returned order — so the output order is the
first-seen order. -/
theorem C2_fetch_headlines_order (m : Registry) (sources categories : List String)
    (n : Nat) :
    fetch_headlines m sources categories n =
      dedupBy (fun a => a.url) (headlineStream m sources categories n) [] :=
  fetch_headlines_eq_dedup m sources categories n

theorem fetch_articles_length_le {S E : Type} (s : SiteScraper S E)
    (hsel : ∀ soup k, (s.select_elements soup k).length ≤ k)
    (transport : String → Option S) (category : String) (n : Nat) :
    (fetch_articles s transport category n).length ≤ n := by
  unfold fetch_articles
  split
  · exact Nat.zero_le n
  · split
    · exact Nat.zero_le n
    · exact le_trans (List.length_filterMap_le _ _) (hsel _ n)

/-- Claim C3: for every adapter (TechCrunch, CNN, and the unregistered SCMP),
every category string, and every cap `n`, the listing fetch returns at most
`n` records: the concrete element selectors all truncate with `[:max_articles]`
and extraction yields at most one record per element. -/
theorem C3_fetch_articles_cap (now : PyDateTime)
    (tcTransport : String → Option (List TCListItem))
    (cnnTransport : String → Option (List CNNListItem))
    {α : Type} (api_nodes : List α) (category : String) (n : Nat) :
    (fetch_articles (techcrunchScraper now) tcTransport category n).length ≤ n ∧
    (fetch_articles cnnScraper cnnTransport category n).length ≤ n ∧
    (scmp_fetch_articles api_nodes category n).length ≤ n := by
  refine ⟨?_, ?_, ?_⟩
  · exact fetch_articles_length_le _
      (fun soup k => List.length_take_le k soup) _ _ _
  · exact fetch_articles_length_le _
      (fun soup k => List.length_take_le k soup) _ _ _
  · exact le_trans (List.length_filterMap_le _ _) (List.length_take_le n api_nodes)

/-- Claim C7: for every adapter using the shared listing path and every
category key missing from its category table, `fetch_articles` returns the
empty list (the raised `ValueError` is caught) and raises nothing. -/
theorem C7_unknown_category {S E : Type} (s : SiteScraper S E)
    (transport : String → Option S) (category : String) (n : Nat)
    (h : List.lookup category s.category_urls = none) :
    fetch_articles s transport category n = [] := by
  have hcat : get_category_url s category = none := by
    unfold get_category_url
    rw [h]
    rfl
  unfold fetch_articles
  rw [hcat]

/-- Witness for C7: the CNN adapter with category `"bogus-category"`. -/
theorem C7_unknown_category_witness :
    fetch_articles cnnScraper (fun _ => (none : Option (List CNNListItem)))
      "bogus-category" 5 = [] :=
  C7_unknown_category cnnScraper (fun _ => none) "bogus-category" 5 (by rfl)

/-- Claim C4: `fetch_detailed_content` never returns fewer records than it was
given — in fact exactly as many — and when every per-article detail fetch
raises, every original record survives into the output instead of being
dropped. -/
theorem C4_detail_non_destructive (m : Registry) (articles : List NewsArticle)
    (hfail : ∀ s ∈ m.map Prod.snd, ∀ u, s.fetch_article_by_url u = none) :
    articles.length ≤ (fetch_detailed_content m articles).length ∧
    ∀ a ∈ articles, a ∈ fetch_detailed_content m articles := by
  constructor
  · rw [fetch_detailed_content_length]
  · intro a ha
    rw [fetch_detailed_content_eq]
    refine List.mem_flatMap.mpr ⟨a.source, ?_, ?_⟩
    · unfold firstKeys
      rw [mem_dedupBy_id]
      exact ⟨List.mem_map.mpr ⟨a, ha, rfl⟩, List.not_mem_nil _⟩
    · have hmem : a ∈ articles.filter (fun x => decide (x.source = a.source)) :=
        List.mem_filter.mpr ⟨ha, by simp⟩
      unfold process_group
      cases hfs : findScraper m a.source with
      | none => exact hmem
      | some scraper =>
        have hin : scraper ∈ m.map Prod.snd := by
          unfold findScraper at hfs
          rcases Option.map_eq_some'.mp hfs with ⟨p, hp, hps⟩
          exact hps ▸ List.mem_map.mpr ⟨p, List.mem_of_find?_eq_some hp, rfl⟩
        have hid : (fun x : NewsArticle =>
            (scraper.fetch_article_by_url x.url).getD x) = fun x => x := by
          funext x
          rw [hfail scraper hin x.url]
          rfl
        show a ∈ (articles.filter (fun x => decide (x.source = a.source))).map
          (fun x => (scraper.fetch_article_by_url x.url).getD x)
        rw [hid, List.map_id']
        exact hmem

/-- A record whose source matches the TechCrunch registry key. -/
def artTC : NewsArticle :=
  { title := "A"
    url := "https://techcrunch.com/2025/a"
    description := none
    published_date := none
    source := "TechCrunch"
    image_url := none
    category := some "ai"
    content := none }

/-- A record whose source matches no registered adapter name. -/
def artUnknown : NewsArticle :=
  { title := "B"
    url := "https://blog.example.com/b"
    description := none
    published_date := none
    source := "Unknown Blog"
    image_url := none
    category := none
    content := none }

/-- A registry shaped like the reference one (keys `techcrunch`, `cnn`)
whose detail fetches always fail. -/
def regFail : Registry :=
  [("techcrunch",
    { fetch_articles := fun _ _ => [], fetch_article_by_url := fun _ => none }),
   ("cnn",
    { fetch_articles := fun _ _ => [], fetch_article_by_url := fun _ => none })]

/-- Witness for C4: one article routed to the TechCrunch adapter whose detail
fetch raises; the original record is kept and the length is preserved. -/
theorem C4_detail_non_destructive_witness :
    [artTC].length ≤ (fetch_detailed_content regFail [artTC]).length ∧
    artTC ∈ fetch_detailed_content regFail [artTC] := by
  have h := C4_detail_non_destructive regFail [artTC]
    (by
      intro s hs u
      simp only [regFail, List.map_cons, List.map_nil, List.mem_cons,
        List.not_mem_nil, or_false] at hs
      rcases hs with h | h <;> subst h <;> rfl)
  exact ⟨h.1, h.2 artTC (List.mem_cons_self _ _)⟩

/-- Claim C5: a record whose `source` matches no registered adapter name
under the case-insensitive bidirectional substring test is passed through to
the output of `fetch_detailed_content` unmodified (and nothing is raised —
the function is total). -/
theorem C5_unmatched_source_passthrough (m : Registry)
    (articles : List NewsArticle) (a : NewsArticle) (ha : a ∈ articles)
    (hnomatch : ∀ p ∈ m, sourceMatches p.1 a.source = false) :
    a ∈ fetch_detailed_content m articles := by
  rw [fetch_detailed_content_eq]
  refine List.mem_flatMap.mpr ⟨a.source, ?_, ?_⟩
  · unfold firstKeys
    rw [mem_dedupBy_id]
    exact ⟨List.mem_map.mpr ⟨a, ha, rfl⟩, List.not_mem_nil _⟩
  · have hfs : findScraper m a.source = none := by
      unfold findScraper
      rw [List.find?_eq_none.mpr (fun p hp => by simp [hnomatch p hp])]
      rfl
    unfold process_group
    rw [hfs]
    exact List.mem_filter.mpr ⟨ha, by simp⟩

/-- Witness for C5: source `"Unknown Blog"` against the reference registry
keys `techcrunch` and `cnn`. -/
theorem C5_unmatched_source_passthrough_witness :
    artUnknown ∈ fetch_detailed_content regFail [artUnknown] :=
  C5_unmatched_source_passthrough regFail [artUnknown] artUnknown
    (List.mem_cons_self _ _)
    (by
      intro p hp
      simp only [regFail, List.mem_cons, List.not_mem_nil, or_false] at hp
      rcases hp with h | h <;> subst h <;> decide)

/-- Claim C6: for every input list (duplicates and external records included)
and every URL, the flattened values of `organize_by_category` contain that URL
exactly once if it occurs in the input and never otherwise (so the union of
the per-category lists is the deduplicated input URL set); every record sits
in the bucket named by its category label, `"uncategorized"` when the
category is absent (or empty); and the empty input yields the empty map. -/
theorem C6_group_by_category (news : List NewsArticle) (u : String) :
    ((organize_by_category news).flatMap Prod.snd).countP
        (fun x => decide (x.url = u)) =
      (if u ∈ news.map (fun a => a.url) then 1 else 0) ∧
    (∀ p ∈ organize_by_category news, ∀ x ∈ p.2, p.1 = categoryLabel x) ∧
    organize_by_category [] = [] := by
  refine ⟨?_, ?_, rfl⟩
  · unfold organize_by_category
    rw [organize_loop_countP]
    simp only [List.flatMap_nil, List.countP_nil, Nat.zero_add]
    rw [dedupBy_countP]
    simp
  · exact organize_loop_labels news [] []
      (by intro p hp; simp at hp)

/-- Witness for C6: a single uncategorized record lands in the
`"uncategorized"` bucket and its URL is counted exactly once. -/
theorem C6_group_by_category_witness :
    ((organize_by_category [artUnknown]).flatMap Prod.snd).countP
        (fun x => decide (x.url = "https://blog.example.com/b")) =
      (if "https://blog.example.com/b" ∈
          [artUnknown].map (fun a => a.url) then 1 else 0) ∧
    "uncategorized" = categoryLabel artUnknown :=
  ⟨(C6_group_by_category [artUnknown] "https://blog.example.com/b").1,
   (C6_group_by_category [artUnknown] "https://blog.example.com/b").2.1
     ("uncategorized", [artUnknown]) (by decide) artUnknown (by decide)⟩

/-- Claim C10: `fetch_detailed_content` returns exactly as many records as it
was given (duplicates preserved, no dedup), and its output is the input
regrouped by the records' `source` field: one contiguous block per source, in
order of first occurrence of each source, each block the order-preserving
sublist of input records with that source (processed by the matched
adapter). -/
theorem C10_detail_regroups_by_source (m : Registry)
    (articles : List NewsArticle) :
    (fetch_detailed_content m articles).length = articles.length ∧
    fetch_detailed_content m articles =
      (firstKeys articles).flatMap
        (fun s =>
          process_group m s
            (articles.filter (fun a => decide (a.source = s)))) :=
  ⟨fetch_detailed_content_length m articles,
   fetch_detailed_content_eq m articles⟩

/-- A fixed value for `datetime.now()` in concrete evaluations. -/
def now0 : PyDateTime := ⟨2025, 1, 2, 3, 4, 5⟩

/-- A TechCrunch listing element with a title and an absolute URL but no
timestamp anywhere in the element. -/
def tcElemNoTime : TCListItem :=
  { title_link := some ("Sample", "https://techcrunch.com/2025/x")
    desc_text := none
    img_src := none
    time_attr := none
    cat_text := none }

/-- Claim C8 counterexample: a TechCrunch listing element containing no
parseable timestamp still yields a record whose `published_date` is present —
the formatted `datetime.now()` default — where the claim requires it to be
absent. -/
theorem C8_counterexample_tc_defaults_to_now :
    tcElemNoTime.time_attr = none ∧
    (tc_extract_article_from_list_item now0 "TechCrunch" tcElemNoTime
        "ai").map (fun a => a.published_date) =
      some (some "2025-01-02 03:04:05") :=
  ⟨rfl, by decide⟩

/-- Claim C8 (amended): `published_date` is a normalized
`YYYY-MM-DD HH:MM:SS` string or absent for CNN listing records (always
absent) and for both adapters' detail-phase date extraction; TechCrunch
listing records, however, always carry a `published_date` string — formatted
from the element's parsed timestamp when one exists, and from the current
time otherwise. -/
theorem C8_amended_published_date :
    (∀ (e : CNNListItem) (cat : String) (a : NewsArticle),
        cnn_extract_article_from_list_item "CNN" "https://www.cnn.com" e cat =
          some a → a.published_date = none) ∧
    (∀ (now : PyDateTime) (e : TCListItem) (cat : String) (a : NewsArticle),
        tc_extract_article_from_list_item now "TechCrunch" e cat = some a →
        a.published_date = some (strftimeYmdHMS (e.time_attr.getD now))) ∧
    (∀ (parseIso : String → Option PyDateTime) (t : Option (Option String)),
        tc_extract_published_date parseIso t = none ∨
        ∃ d, tc_extract_published_date parseIso t = some (strftimeYmdHMS d)) ∧
    (∀ (parseIso parseUS : String → Option PyDateTime)
        (t : Option CNNTimeElem),
        cnn_extract_published_date parseIso parseUS t = none ∨
        ∃ d, cnn_extract_published_date parseIso parseUS t =
          some (strftimeYmdHMS d)) := by
  refine ⟨?_, ?_, ?_, ?_⟩
  · intro e cat a h
    obtain ⟨tt, lh, dt, im⟩ := e
    cases tt with
    | none => exact absurd h (by simp [cnn_extract_article_from_list_item])
    | some title =>
      simp only [cnn_extract_article_from_list_item] at h
      split at h <;> split at h
      · exact absurd h (by simp)
      · rw [Option.some.injEq] at h
        subst h
        rfl
      · exact absurd h (by simp)
      · rw [Option.some.injEq] at h
        subst h
        rfl
  · intro now e cat a h
    obtain ⟨tt, dt, im, ta, ct⟩ := e
    cases tt with
    | none => exact absurd h (by simp [tc_extract_article_from_list_item])
    | some p =>
      obtain ⟨t, u⟩ := p
      simp only [tc_extract_article_from_list_item] at h
      split at h
      · exact absurd h (by simp)
      · rw [Option.some.injEq] at h
        subst h
        rfl
  · intro parseIso t
    rcases t with _ | t2
    · exact Or.inl rfl
    · rcases t2 with _ | s
      · exact Or.inl rfl
      · cases hp : parseIso s with
        | none => exact Or.inl (by simp [tc_extract_published_date, hp])
        | some d => exact Or.inr ⟨d, by simp [tc_extract_published_date, hp]⟩
  · intro parseIso parseUS t
    have hgen : ∀ o : Option PyDateTime,
        o.map strftimeYmdHMS = none ∨
        ∃ d, o.map strftimeYmdHMS = some (strftimeYmdHMS d) := by
      intro o
      cases o with
      | none => exact Or.inl rfl
      | some d => exact Or.inr ⟨d, rfl⟩
    rcases t with _ | te
    · exact Or.inl rfl
    · exact hgen _

/-- A CNN listing element with a title and an absolute link. -/
def cnnElemAbs : CNNListItem :=
  { title_text := some "Headline"
    link_href := "https://www.cnn.com/world/a"
    desc_text := none
    img := none }

/-- The record `cnn_extract_article_from_list_item` produces for
`cnnElemAbs` in category `"world"`. -/
def cnnArtAbs : NewsArticle :=
  { title := "Headline"
    url := "https://www.cnn.com/world/a"
    description := none
    published_date := none
    source := "CNN"
    image_url := none
    category := some "world"
    content := none }

/-- The record `tc_extract_article_from_list_item` produces for
`tcElemNoTime` at time `now0` in category `"ai"`. -/
def tcArtNoTime : NewsArticle :=
  { title := "Sample"
    url := "https://techcrunch.com/2025/x"
    description := some "No description available."
    published_date := some "2025-01-02 03:04:05"
    source := "TechCrunch"
    image_url := none
    category := some "ai"
    content := none }

/-- Witness for the amended C8, at the concrete elements above. -/
theorem C8_amended_published_date_witness :
    cnnArtAbs.published_date = none ∧
    tcArtNoTime.published_date =
      some (strftimeYmdHMS (tcElemNoTime.time_attr.getD now0)) ∧
    (tc_extract_published_date (fun _ => none) none = none ∨
      ∃ d, tc_extract_published_date (fun _ => none) none =
        some (strftimeYmdHMS d)) ∧
    (cnn_extract_published_date (fun _ => none) (fun _ => none) none = none ∨
      ∃ d, cnn_extract_published_date (fun _ => none) (fun _ => none) none =
        some (strftimeYmdHMS d)) :=
  ⟨C8_amended_published_date.1 cnnElemAbs "world" cnnArtAbs (by decide),
   C8_amended_published_date.2.1 now0 tcElemNoTime "ai" tcArtNoTime (by decide),
   C8_amended_published_date.2.2.1 (fun _ => none) none,
   C8_amended_published_date.2.2.2 (fun _ => none) (fun _ => none) none⟩

/-- A TechCrunch listing element whose anchor href is relative. -/
def tcElemRelative : TCListItem :=
  { title_link := some ("Rel", "/2025/relative")
    desc_text := none
    img_src := none
    time_attr := none
    cat_text := none }

/-- Claim C9 counterexample: the TechCrunch listing extraction stores the raw
relative `href` without resolving it against the adapter's base URL, so the
produced record's `url` is not absolute (resolution would have produced the
third value). -/
theorem C9_counterexample_relative_url_kept :
    (tc_extract_article_from_list_item now0 "TechCrunch" tcElemRelative
        "ai").map (fun a => a.url) = some "/2025/relative" ∧
    startsWithStr "/2025/relative" "http" = false ∧
    urljoin "https://techcrunch.com" "/2025/relative" =
      "https://techcrunch.com/2025/relative" :=
  ⟨by decide, by decide, by decide⟩

/-- Claim C9 (amended): CNN listing extraction resolves hrefs that do not
start with `"http"` against the base URL before storing them; TechCrunch
listing extraction stores the extracted href verbatim, with no resolution;
and in both adapters an element lacking a resolvable title or URL produces no
record. -/
theorem C9_amended_urls :
    (∀ (e : CNNListItem) (cat : String) (a : NewsArticle),
        cnn_extract_article_from_list_item "CNN" "https://www.cnn.com" e cat =
          some a →
        a.url = (if startsWithStr e.link_href "http" then e.link_href
                 else urljoin "https://www.cnn.com" e.link_href)) ∧
    (∀ (now : PyDateTime) (e : TCListItem) (cat : String) (a : NewsArticle),
        tc_extract_article_from_list_item now "TechCrunch" e cat = some a →
        ∃ title, e.title_link = some (title, a.url)) ∧
    (∀ (now : PyDateTime) (e : TCListItem) (cat : String),
        (e.title_link = none ∨ ∃ t, e.title_link = some (t, "")) →
        tc_extract_article_from_list_item now "TechCrunch" e cat = none) ∧
    (∀ (e : CNNListItem) (cat : String),
        (e.title_text = none ∨ e.link_href = "") →
        cnn_extract_article_from_list_item "CNN" "https://www.cnn.com" e cat =
          none) := by
  refine ⟨?_, ?_, ?_, ?_⟩
  · intro e cat a h
    obtain ⟨tt, lh, dt, im⟩ := e
    cases tt with
    | none => exact absurd h (by simp [cnn_extract_article_from_list_item])
    | some title =>
      simp only [cnn_extract_article_from_list_item] at h
      split at h <;> split at h
      · exact absurd h (by simp)
      · rename_i hc hg
        rw [Option.some.injEq] at h
        subst h
        simp [hc.2]
      · exact absurd h (by simp)
      · rename_i hc hg
        rw [Option.some.injEq] at h
        subst h
        have hlh : ¬ lh = "" := fun he => hg (Or.inl he)
        have hst : startsWithStr lh "http" = true := by
          by_contra hst
          exact hc ⟨hlh, hst⟩
        simp [hst]
  · intro now e cat a h
    obtain ⟨tt, dt, im, ta, ct⟩ := e
    cases tt with
    | none => exact absurd h (by simp [tc_extract_article_from_list_item])
    | some p =>
      obtain ⟨t, u⟩ := p
      simp only [tc_extract_article_from_list_item] at h
      split at h
      · exact absurd h (by simp)
      · rw [Option.some.injEq] at h
        subst h
        exact ⟨t, rfl⟩
  · intro now e cat h
    obtain ⟨tt, dt, im, ta, ct⟩ := e
    rcases h with h | ⟨t, h⟩ <;> subst h <;>
      simp [tc_extract_article_from_list_item]
  · intro e cat h
    obtain ⟨tt, lh, dt, im⟩ := e
    rcases h with h | h
    · subst h
      simp [cnn_extract_article_from_list_item]
    · subst h
      cases tt <;> simp [cnn_extract_article_from_list_item]

/-- A CNN listing element with a relative link. -/
def cnnElemRel : CNNListItem :=
  { title_text := some "R"
    link_href := "/world/x"
    desc_text := none
    img := none }

/-- The record `cnn_extract_article_from_list_item` produces for
`cnnElemRel` in category `"world"` (note the resolved URL). -/
def cnnArtRel : NewsArticle :=
  { title := "R"
    url := "https://www.cnn.com/world/x"
    description := none
    published_date := none
    source := "CNN"
    image_url := none
    category := some "world"
    content := none }

/-- The record `tc_extract_article_from_list_item` produces for
`tcElemRelative` at time `now0` in category `"ai"` (note the unresolved
URL). -/
def tcArtRel : NewsArticle :=
  { title := "Rel"
    url := "/2025/relative"
    description := some "No description available."
    published_date := some "2025-01-02 03:04:05"
    source := "TechCrunch"
    image_url := none
    category := some "ai"
    content := none }

/-- A TechCrunch listing element with no title anchor at all. -/
def tcElemNoLink : TCListItem :=
  { title_link := none
    desc_text := none
    img_src := none
    time_attr := none
    cat_text := none }

/-- A CNN listing element whose headline has no resolvable link. -/
def cnnElemNoLink : CNNListItem :=
  { title_text := some "R"
    link_href := ""
    desc_text := none
    img := none }

/-- Witness for the amended C9, at the concrete elements above. -/
theorem C9_amended_urls_witness :
    cnnArtRel.url = (if startsWithStr cnnElemRel.link_href "http" then
      cnnElemRel.link_href
    else urljoin "https://www.cnn.com" cnnElemRel.link_href) ∧
    (∃ title, tcElemRelative.title_link = some (title, tcArtRel.url)) ∧
    tc_extract_article_from_list_item now0 "TechCrunch" tcElemNoLink "ai" =
      none ∧
    cnn_extract_article_from_list_item "CNN" "https://www.cnn.com"
      cnnElemNoLink "world" = none :=
  ⟨C9_amended_urls.1 cnnElemRel "world" cnnArtRel (by decide),
   C9_amended_urls.2.1 now0 tcElemRelative "ai" tcArtRel (by decide),
   C9_amended_urls.2.2.1 now0 tcElemNoLink "ai" (Or.inl rfl),
   C9_amended_urls.2.2.2 cnnElemNoLink "world" (Or.inr rfl)⟩

end DailyNews
